import Mathlib

/-!
Shallow embedding of the `process-stream` crate (src/src/lib.rs, src/src/item.rs,
src/runner.rs): the process-output multiplexing engine, its event item types, and
the surrounding `Process` state, together with proofs about the event sequences
they produce.

Machine integers (`i32` exit codes) are modelled as `Int`; `std::io::Error` values
are modelled by their rendered message (`e.to_string()`), i.e. as `String`.
-/

namespace ProcessStream

/-- `std::io::Error`, modelled by the message that `e.to_string()` renders. -/
abbrev IoError := String

/-! ## src/src/item.rs -/

/-- `ProcessItem` from src/src/item.rs: the event type of the lib.rs engine. -/
inductive ProcessItem where
  | Output (s : String)
  | Error (s : String)
  | Exit (s : String)
deriving DecidableEq, Repr

/-- `impl From<(bool, io::Result<String>)> for ProcessItem` (src/src/item.rs:42-50):
`Ok(line)` with `is_stdout` gives `Output(line)`, `Ok(line)` otherwise gives
`Error(line)`, and `Err(e)` gives `Error(e.to_string())` for either origin. -/
def ProcessItem.ofRaw : Bool → Except IoError String → ProcessItem
  | true, .ok line => .Output line
  | false, .ok line => .Error line
  | _, .error e => .Error e

/-- `ProcessItem::as_exit` (src/src/item.rs:87-93). -/
def ProcessItem.as_exit : ProcessItem → Option String
  | .Exit v => some v
  | _ => none

/-- `ProcessItem::is_exit` (src/src/item.rs:73-75). -/
def ProcessItem.is_exit : ProcessItem → Bool
  | .Exit _ => true
  | _ => false

/-- Rust `char::is_whitespace`: membership in the Unicode `White_Space` set,
spelled out by code point. -/
def rustIsWhitespace (c : Char) : Bool :=
  c.toNat ∈ [0x09, 0x0A, 0x0B, 0x0C, 0x0D, 0x20, 0x85, 0xA0, 0x1680,
    0x2000, 0x2001, 0x2002, 0x2003, 0x2004, 0x2005, 0x2006, 0x2007,
    0x2008, 0x2009, 0x200A, 0x2028, 0x2029, 0x202F, 0x205F, 0x3000]

/-- Rust `str::trim`: drop leading and trailing whitespace characters. -/
def rustTrimList (s : List Char) : List Char :=
  ((s.dropWhile rustIsWhitespace).reverse.dropWhile rustIsWhitespace).reverse

/-- Rust `str::trim` on `String`. -/
def rustTrim (s : String) : String := ⟨rustTrimList s.data⟩

/-- `ProcessItem::is_success` (src/src/item.rs:81-83):
`self.as_exit().map(|s| s.trim() == "0")`. -/
def ProcessItem.is_success (i : ProcessItem) : Option Bool :=
  i.as_exit.map (fun s => rustTrim s == "0")

/-! ## Decimal rendering of exit codes

`format!("{code}")` on an `i32` (src/src/lib.rs:89) and `.to_string()` on an
`i32` (src/runner.rs:75) print the code in decimal: digits of the absolute
value, most significant first, with a leading `-` for negative values and a
single `0` for zero. -/

/-- Decimal digit characters of `n`, most significant first; `fuel` bounds the
recursion depth (any `fuel > n` is enough). -/
def natDecCharsAux : Nat → Nat → List Char
  | 0, _ => []
  | fuel + 1, n =>
    if n < 10 then [Char.ofNat (48 + n)]
    else natDecCharsAux fuel (n / 10) ++ [Char.ofNat (48 + n % 10)]

/-- Decimal digit characters of `n`, most significant first. -/
def natDecChars (n : Nat) : List Char := natDecCharsAux (n + 1) n

/-- Rust's decimal `Display` of a (signed) integer, as used by
`format!("{code}")` in src/src/lib.rs:89 and `.to_string()` in src/runner.rs:75. -/
def formatInt : Int → String
  | .ofNat n => ⟨natDecChars n⟩
  | .negSucc n => ⟨'-' :: natDecChars (n + 1)⟩

/-- Value of one decimal digit character list read back as a number
(specification-side inverse of `natDecChars`). -/
def parseDecNat (l : List Char) : Nat :=
  l.foldl (fun acc c => acc * 10 + (c.toNat - 48)) 0

/-- Specification-side decimal reader on a character list. -/
def parseDecIntChars (l : List Char) : Int :=
  if l.head? = some '-' then -(parseDecNat l.tail : Int)
  else (parseDecNat l : Int)

/-- Specification-side decimal reader for signed integers. -/
def parseDecInt (s : String) : Int := parseDecIntChars s.data

/-! ## The lib.rs engine (`ProcessExt::_spawn_and_stream`, src/src/lib.rs:65-108)

The engine is an `async_stream` loop around a three-way `tokio::select!`.  One
loop iteration commits to exactly one resolved arm; we embed an execution of
the loop as the list of resolved arms (the oracle that settles the scheduling
nondeterminism), and the stream as the fold of the loop body over that list. -/

/-- The resolution of one `tokio::select!` iteration in `_spawn_and_stream`
(src/src/lib.rs:83-103): a merged stdout/stderr line arrived (`line`, with its
origin flag and `io::Result<String>` payload), `child.wait()` completed
(`wait`, with `Err(e)` or `Ok(status)` whose `.code()` is an `Option` exit
code), or `abort.notified()` fired (`abortSig`, with the result of
`child.start_kill()`). -/
inductive SelectArm where
  | line (is_stdout : Bool) (r : Except IoError String)
  | wait (r : Except IoError (Option Int))
  | abortSig (kill : Except IoError Unit)

/-- The single `ProcessItem` yielded by the loop body of `_spawn_and_stream`
for a resolved arm (src/src/lib.rs:84-102). -/
def stepEmit : SelectArm → ProcessItem
  | .line b r => ProcessItem.ofRaw b r
  | .wait (.error e) => .Error e
  | .wait (.ok (some code)) => .Exit (formatInt code)
  | .wait (.ok none) => .Error "Unable to get exit code"
  | .abortSig (.ok _) => .Exit "0"
  | .abortSig (.error e) => .Error ("abort Process Error: " ++ e)

/-- Whether the loop body of `_spawn_and_stream` executes `break` after
yielding for this arm (src/src/lib.rs:84-102): it breaks on `Ok(status)` from
`child.wait()` (whether or not a code is available) and on the abort arm, and
does NOT break on a `line` arm or on `Err` from `child.wait()`. -/
def stepBreaks : SelectArm → Bool
  | .line _ _ => false
  | .wait (.error _) => false
  | .wait (.ok _) => true
  | .abortSig _ => true

/-- The event sequence produced by the `_spawn_and_stream` loop over a list of
resolved select arms: each iteration yields its item, and the run stops at the
first arm whose branch breaks (src/src/lib.rs:80-105). -/
def spawnAndStreamRun : List SelectArm → List ProcessItem
  | [] => []
  | a :: rest =>
    if stepBreaks a then [stepEmit a] else stepEmit a :: spawnAndStreamRun rest

/-- The events that claim C1 counts as terminal: every event not produced from
a merged stdout/stderr line, i.e. `Exit` events and the `Error` events for
exit-wait failure, kill failure and missing exit code. -/
def claimTerminal : SelectArm → Bool
  | .line _ _ => false
  | _ => true

/-! ## The runner.rs engine (`to_stream`, src/runner.rs:58-83) -/

/-- `ProcessUpdate` from src/runner.rs:12-18. -/
inductive ProcessUpdate where
  | Stdout (s : String)
  | Stderr (s : String)
  | Exit (s : String)
  | Error (s : String)
deriving DecidableEq, Repr

/-- The per-line mapping of `to_stream` (src/runner.rs:60-67): an `Ok` stdout
line becomes `Stdout`, an `Ok` stderr line becomes `Stderr`, and a read error
on either pipe becomes `Error("io: {e}")`. -/
def ProcessUpdate.ofLine : Bool → Except IoError String → ProcessUpdate
  | true, .ok s => .Stdout s
  | false, .ok s => .Stderr s
  | _, .error e => .Error ("io: " ++ e)

/-- The exit-wait outcome consumed by `to_stream` (src/runner.rs:73-79):
`exit_status.await` is a `Result<io::Result<ExitStatus>, JoinError>`; an
`ExitStatus` is represented by its `.code() : Option<i32>`. -/
abbrev ExitOutcome := Except IoError (Except IoError (Option Int))

/-- The single chained final element of `to_stream` (src/runner.rs:72-80):
`Ok(Ok(x))` gives `Exit(x.code().unwrap_or(0).to_string())`, `Ok(Err(e))` and
`Err(e)` give `Error(e.to_string())`. -/
def finalUpdate : ExitOutcome → ProcessUpdate
  | .ok (.ok code?) => .Exit (formatInt (code?.getD 0))
  | .ok (.error e) => .Error e
  | .error e => .Error e

/-- The event sequence of the stream returned by `to_stream`
(src/runner.rs:71-82): the merged mapped stdout/stderr lines, `chain`ed with
the one final exit element. -/
def toStreamRun (merged : List (Bool × Except IoError String))
    (exitRes : ExitOutcome) : List ProcessUpdate :=
  merged.map (fun p => ProcessUpdate.ofLine p.1 p.2) ++ [finalUpdate exitRes]

/-! ## The `Process` state (src/src/lib.rs:133-259) -/

/-- `std::process::Stdio` pipe policy, as configurable on a `Command`. -/
inductive Stdio where
  | null
  | piped
  | inherit
deriving DecidableEq, Repr

/-- The slice of `tokio::process::Command` state that the claims touch: the
program and the appended argument list. -/
structure Command where
  program : String
  args : List String
deriving DecidableEq, Repr

/-- `Command::new` (as called in src/src/lib.rs:241): program set, no args. -/
def Command.new (program : String) : Command :=
  { program := program, args := [] }

/-- `Command::args` (as called in src/src/lib.rs:242): appends to the
argument list. -/
def Command.addArgs (c : Command) (l : List String) : Command :=
  { c with args := c.args ++ l }

/-- Modelled from the spec: the Cancellation Signal (`tokio::sync::Notify`,
external to this repository) as a first-fire-wins flag — "a shareable,
multi-owner trigger"; "`fire()` is idempotent ... only the first fire has
effect" (spec §2, §4.5). -/
structure NotifyToken where
  fired : Bool
deriving DecidableEq, Repr

/-- `Notify::notify_waiters` as the fire operation on the modelled token:
sets the fired flag. -/
def NotifyToken.notify_waiters (_t : NotifyToken) : NotifyToken :=
  { fired := true }

/-- A `ChildStdin` handle, abstract; distinct handles are distinguished by a
number. -/
abbrev ChildStdin := Nat

/-- `Process` (src/src/lib.rs:134-141).  The Rust struct has both a field
`abort` and a method `abort`; the field is named `abort_notify` here. -/
structure Process where
  inner : Command
  stdin : Option ChildStdin
  set_stdin : Option Stdio
  set_stdout : Option Stdio
  set_stderr : Option Stdio
  abort_notify : Option NotifyToken
deriving DecidableEq, Repr

/-- `Process::new` (src/src/lib.rs:179-188). -/
def Process.new (program : String) : Process :=
  { inner := Command.new program
    set_stdin := some .null
    set_stdout := some .piped
    set_stderr := some .piped
    stdin := none
    abort_notify := none }

/-- `impl From<Command> for Process` (src/src/lib.rs:225-236). -/
def Process.from_command (c : Command) : Process :=
  { inner := c
    stdin := none
    set_stdin := some .null
    set_stdout := some .piped
    set_stderr := some .piped
    abort_notify := none }

/-- `Vec::remove(0)` (src/src/lib.rs:240): removes and returns the first
element; on an empty vector the call panics, modelled as `none`. -/
def vecRemoveFirst : List α → Option (α × List α)
  | [] => none
  | x :: xs => some (x, xs)

/-- `impl From<Vec<S>> for Process` (src/src/lib.rs:238-246): remove the first
element as the program, append the remaining elements as arguments, and build
the `Process` via `From<Command>`.  The panic of `remove(0)` on an empty
vector surfaces as `none`. -/
def Process.from_vec (v : List String) : Option Process :=
  (vecRemoveFirst v).map fun p =>
    Process.from_command ((Command.new p.1).addArgs p.2)

/-- `Process::aborter` (src/src/lib.rs:148-150). -/
def Process.aborter (p : Process) : Option NotifyToken :=
  p.abort_notify

/-- `Process::abort` (src/src/lib.rs:206-208):
`self.aborter().map(|k| k.notify_waiters())` — fires the notify token when one
is set, and does nothing otherwise. -/
def Process.abort (p : Process) : Process :=
  match p.aborter with
  | none => p
  | some t => { p with abort_notify := some t.notify_waiters }

/-- `Process::take_stdin` (src/src/lib.rs:156-158): `self.stdin.take()` —
returns the stored handle and leaves `none` behind. -/
def Process.take_stdin (p : Process) : Option ChildStdin × Process :=
  (p.stdin, { p with stdin := none })

/-- `ProcessExt::set_child_stdin` as implemented by `Process`
(src/src/lib.rs:160-162). -/
def Process.set_child_stdin (p : Process) (h : Option ChildStdin) : Process :=
  { p with stdin := h }

/-- Modelled from the spec: what `Command::spawn` (external `tokio::process`)
leaves in `child.stdin`, which `_spawn_and_stream` moves into the `Process`
via `set_child_stdin(child.stdin.take())` (src/src/lib.rs:73): a writable
handle exactly when standard input was configured as a pipe, and nothing when
it was configured closed/null or inherited (spec §6: "absent ... if standard
input was not configured as writable"). -/
def spawnChildStdin (cfg : Stdio) (h : ChildStdin) : Option ChildStdin :=
  match cfg with
  | .piped => some h
  | _ => none

/-! ## The Line Reader and the Stream Merger

`into_stream` (src/src/lib.rs:270-279) pipes a raw byte handle through
`BufReader::lines` / `LinesStream` (external `tokio` code) and maps each
`io::Result<String>` through `From<(bool, io::Result<String>)>`. -/

/-- Modelled from the spec: the terminator stripping of `BufReader::lines`
(external to this repository) — after the trailing line feed is removed, one
carriage return immediately before it is removed as well. -/
def stripCR (l : List Char) : List Char :=
  if l.getLast? = some '\r' then l.dropLast else l

/-- Modelled from the spec: the line-splitting discipline of the Line Reader
(`BufReader::lines`, external to this repository) — "Each line is decoded
using a text line-splitting discipline (split on line-feed ...)" (spec §4.1);
an `Output`/`Error` event "carries one line of text with the trailing line
terminator stripped" (spec §6).  `acc` is the partial line assembled so far;
a final segment at end of input is produced without terminator stripping. -/
def splitLinesAux : List Char → List Char → List (List Char)
  | acc, [] => if acc.isEmpty then [] else [acc]
  | acc, c :: rest =>
    if c = '\n' then stripCR acc :: splitLinesAux [] rest
    else splitLinesAux (acc ++ [c]) rest

/-- The lines produced by the Line Reader from a raw character sequence. -/
def splitLines (s : List Char) : List (List Char) := splitLinesAux [] s

/-- `into_stream` (src/src/lib.rs:270-279) applied to the decoded line results
of one handle: every `io::Result<String>` is mapped through
`From<(bool, io::Result<String>)>`. -/
def into_stream (items : List (Except IoError String)) (is_stdout : Bool) :
    List ProcessItem :=
  items.map (ProcessItem.ofRaw is_stdout)

/-- Modelled from the spec: the Stream Merger (`tokio_stream` `merge`,
external to this repository, called at src/src/lib.rs:78 and
src/runner.rs:71) — "produce one sequence ... that yields an item as soon as
either side has one ready; if both are ready, either order is acceptable";
"The merged sequence ends only when both inputs have ended" (spec §4.2).
`Merge xs ys zs` holds when `zs` is one admissible interleaving of `xs` and
`ys`. -/
inductive Merge {α : Type} : List α → List α → List α → Prop
  | nil : Merge [] [] []
  | left {x : α} {xs ys zs : List α} : Merge xs ys zs → Merge (x :: xs) ys (x :: zs)
  | right {y : α} {xs ys zs : List α} : Merge xs ys zs → Merge xs (y :: ys) (y :: zs)

/-! ## Statements of claims that the code refutes -/

/-- Claim C1 as stated, on the lib.rs engine: a run over zero or more line
arms followed by an arm that the claim counts as terminal (any non-line arm)
consists of the line events followed by that one terminal event, with nothing
emitted afterwards regardless of what later iterations would resolve. -/
def TerminalShapeClaim : Prop :=
  ∀ pres a rest, (∀ b ∈ pres, claimTerminal b = false) → claimTerminal a = true →
    spawnAndStreamRun (pres ++ a :: rest) = pres.map stepEmit ++ [stepEmit a]

/-- Claim C2 as stated, on the lib.rs engine: after `child.wait()` fails, the
run consists of that one `Error` event and nothing else, whatever later
iterations would have produced. -/
def WaitErrorTerminalClaim : Prop :=
  ∀ e rest, spawnAndStreamRun (SelectArm.wait (.error e) :: rest)
    = [ProcessItem.Error e]

/-- Claim C3 as stated: when the child terminates without a numeric exit code,
the terminal event is never an `Exit` event — in the lib.rs engine and in the
runner.rs `to_stream` alike. -/
def MissingCodeNeverExitClaim : Prop :=
  (∀ s, stepEmit (SelectArm.wait (.ok none)) ≠ ProcessItem.Exit s) ∧
  (∀ merged s, (toStreamRun merged (.ok (.ok none))).getLast?
    ≠ some (ProcessUpdate.Exit s))

/-! ## Helper lemmas -/

theorem spawnAndStreamRun_append_break (pres : List SelectArm) (a : SelectArm)
    (rest : List SelectArm) (hpre : ∀ b ∈ pres, stepBreaks b = false)
    (ha : stepBreaks a = true) :
    spawnAndStreamRun (pres ++ a :: rest) = pres.map stepEmit ++ [stepEmit a] := by
  induction pres with
  | nil => simp [spawnAndStreamRun, ha]
  | cons b pres2 ih =>
    have hb : stepBreaks b = false := hpre b (by simp)
    have ih2 := ih fun x hx => hpre x (by simp [hx])
    simp [spawnAndStreamRun, hb, ih2]

theorem spawnAndStreamRun_cons_nobreak (a : SelectArm) (rest : List SelectArm)
    (ha : stepBreaks a = false) :
    spawnAndStreamRun (a :: rest) = stepEmit a :: spawnAndStreamRun rest := by
  simp [spawnAndStreamRun, ha]

theorem digit_toNat (k : Nat) (h : k < 10) : (Char.ofNat (48 + k)).toNat = 48 + k := by
  interval_cases k <;> decide

theorem natDecCharsAux_digit_range (fuel : Nat) :
    ∀ n, n < fuel → ∀ c ∈ natDecCharsAux fuel n, 48 ≤ c.toNat ∧ c.toNat ≤ 57 := by
  induction fuel with
  | zero => omega
  | succ fuel ih =>
    intro n hn c hc
    simp only [natDecCharsAux] at hc
    by_cases h10 : n < 10
    · rw [if_pos h10] at hc
      simp at hc
      subst hc
      have := digit_toNat n h10
      omega
    · rw [if_neg h10] at hc
      rcases List.mem_append.1 hc with h1 | h2
      · have hdiv : n / 10 < fuel := by
          have := Nat.div_lt_self (show 0 < n by omega) (show 1 < 10 by norm_num)
          omega
        exact ih (n / 10) hdiv c h1
      · simp at h2
        subst h2
        have := digit_toNat (n % 10) (Nat.mod_lt n (by norm_num))
        omega

theorem natDecChars_digit_range (n : Nat) :
    ∀ c ∈ natDecChars n, 48 ≤ c.toNat ∧ c.toNat ≤ 57 :=
  natDecCharsAux_digit_range (n + 1) n (Nat.lt_succ_self n)

theorem parseDecNat_append_digit (l : List Char) (c : Char) :
    parseDecNat (l ++ [c]) = parseDecNat l * 10 + (c.toNat - 48) := by
  simp [parseDecNat, List.foldl_append]

theorem parseDecNat_natDecCharsAux (fuel : Nat) :
    ∀ n, n < fuel → parseDecNat (natDecCharsAux fuel n) = n := by
  induction fuel with
  | zero => omega
  | succ fuel ih =>
    intro n hn
    simp only [natDecCharsAux]
    by_cases h10 : n < 10
    · rw [if_pos h10]
      simp only [parseDecNat, List.foldl_cons, List.foldl_nil]
      rw [digit_toNat n h10]
      omega
    · rw [if_neg h10, parseDecNat_append_digit]
      have hdiv : n / 10 < fuel := by
        have := Nat.div_lt_self (show 0 < n by omega) (show 1 < 10 by norm_num)
        omega
      rw [ih (n / 10) hdiv, digit_toNat (n % 10) (Nat.mod_lt n (by norm_num))]
      omega

theorem parse_formatInt (c : Int) : parseDecInt (formatInt c) = c := by
  cases c with
  | ofNat n =>
    show parseDecIntChars (natDecChars n) = Int.ofNat n
    have hne : ¬ (natDecChars n).head? = some '-' := by
      intro hc
      have hmem : '-' ∈ natDecChars n := List.mem_of_mem_head? (by simp [hc])
      have hr := natDecChars_digit_range n _ hmem
      have hv : ('-').toNat = 45 := rfl
      omega
    rw [parseDecIntChars, if_neg hne,
      show natDecChars n = natDecCharsAux (n + 1) n from rfl,
      parseDecNat_natDecCharsAux (n + 1) n (Nat.lt_succ_self n)]
    rfl
  | negSucc n =>
    show parseDecIntChars ('-' :: natDecChars (n + 1)) = Int.negSucc n
    have hcond : ('-' :: natDecChars (n + 1)).head? = some '-' := rfl
    rw [parseDecIntChars, if_pos hcond]
    simp only [List.tail_cons,
      show natDecChars (n + 1) = natDecCharsAux (n + 2) (n + 1) from rfl,
      parseDecNat_natDecCharsAux (n + 2) (n + 1) (Nat.lt_succ_self (n + 1))]
    simp [Int.negSucc_eq]

theorem mem_stripCR {l : List Char} {c : Char} (h : c ∈ stripCR l) : c ∈ l := by
  rw [stripCR] at h
  split at h
  · exact (List.dropLast_sublist l).mem h
  · exact h

theorem splitLinesAux_no_newline :
    ∀ (s acc : List Char), '\n' ∉ acc → ∀ l ∈ splitLinesAux acc s, '\n' ∉ l := by
  intro s
  induction s with
  | nil =>
    intro acc hacc l hl
    simp only [splitLinesAux] at hl
    split at hl
    · simp at hl
    · simp at hl
      subst hl
      exact hacc
  | cons c rest ih =>
    intro acc hacc l hl
    simp only [splitLinesAux] at hl
    by_cases hc : c = '\n'
    · rw [if_pos hc] at hl
      rcases List.mem_cons.1 hl with hl | hl
      · subst hl
        exact fun hnl => hacc (mem_stripCR hnl)
      · exact ih [] (by simp) l hl
    · rw [if_neg hc] at hl
      refine ih (acc ++ [c]) ?_ l hl
      intro hx
      rcases List.mem_append.1 hx with h1 | h2
      · exact hacc h1
      · simp at h2
        exact hc h2.symm

theorem splitLines_no_newline (raw : List Char) : ∀ l ∈ splitLines raw, '\n' ∉ l :=
  splitLinesAux_no_newline raw [] (by simp)

/-! ## Claim theorems -/

/-- Claim C9: `ProcessItem::is_success` is `none` exactly when the item is not
an `Exit` variant; on `Exit s` it is `some true` exactly when `s` with
surrounding whitespace trimmed equals `"0"` (so `Exit " 0 "` counts as
success), and `some false` for every other code text. -/
theorem is_success_spec (i : ProcessItem) :
    (i.is_success = none ↔ i.is_exit = false) ∧
    (∀ s, i = ProcessItem.Exit s →
      ((i.is_success = some true ↔ rustTrim s = "0") ∧
       (rustTrim s ≠ "0" → i.is_success = some false))) ∧
    (ProcessItem.Exit " 0 ").is_success = some true := by
  refine ⟨?_, ?_, by decide⟩
  · cases i <;>
      simp [ProcessItem.is_success, ProcessItem.as_exit, ProcessItem.is_exit]
  · rintro s rfl
    constructor
    · simp [ProcessItem.is_success, ProcessItem.as_exit]
    · intro hne
      simp [ProcessItem.is_success, ProcessItem.as_exit, hne]

/-- Witness for C9 at concrete items: `Exit " 0 "` is a success, `Exit "1"`
is not. -/
theorem is_success_spec_witness :
    (ProcessItem.Exit " 0 ").is_success = some true ∧
    (ProcessItem.Exit "1").is_success = some false :=
  ⟨(is_success_spec (ProcessItem.Exit " 0 ")).2.2,
   ((is_success_spec (ProcessItem.Exit "1")).2.1 "1" rfl).2 (by decide)⟩

/-- Claim C10: for every non-empty vector of argument strings, `Process::from`
builds a `Process` whose program is the first element and whose appended
arguments are the remaining elements in order; non-emptiness is a required
precondition — the removal at index 0, and with it the conversion, is
undefined (`none`) on the empty vector. -/
theorem from_vec_spec (v : List String) (h : v ≠ []) :
    (∃ p, Process.from_vec v = some p ∧
      p.inner.program = v.headI ∧ p.inner.args = v.tail) ∧
    Process.from_vec [] = none ∧
    vecRemoveFirst ([] : List String) = none := by
  obtain ⟨a, t, rfl⟩ := List.exists_cons_of_ne_nil h
  exact ⟨⟨_, rfl, rfl, rfl⟩, rfl, rfl⟩

/-- Witness for C10 at a concrete vector. -/
theorem from_vec_spec_witness :
    (∃ p, Process.from_vec ["ls", "-l"] = some p ∧
      p.inner.program = "ls" ∧ p.inner.args = ["-l"]) ∧
    Process.from_vec [] = none ∧
    vecRemoveFirst ([] : List String) = none :=
  from_vec_spec ["ls", "-l"] (by decide)

/-- Claim C8: `take_stdin` returns the child's standard-input handle at most
once — the first call after a spawn that configured stdin as a pipe returns
the handle, every later call returns `none`, and the call returns `none`
whenever stdin was not configured as writable. -/
theorem take_stdin_spec (p : Process) (cfg : Stdio) (h : ChildStdin) :
    ((p.set_child_stdin (spawnChildStdin Stdio.piped h)).take_stdin).1 = some h ∧
    (∀ q : Process, (((q.take_stdin).2).take_stdin).1 = none) ∧
    (cfg ≠ Stdio.piped →
      ((p.set_child_stdin (spawnChildStdin cfg h)).take_stdin).1 = none) := by
  refine ⟨rfl, fun q => rfl, fun hcfg => ?_⟩
  cases cfg with
  | piped => exact absurd rfl hcfg
  | null => rfl
  | inherit => rfl

/-- Witness for C8 at a concrete process and handle. -/
theorem take_stdin_spec_witness :
    (((Process.new "sort").set_child_stdin
        (spawnChildStdin Stdio.piped 7)).take_stdin).1 = some 7 ∧
    (((Process.new "sort").set_child_stdin
        (spawnChildStdin Stdio.null 7)).take_stdin).1 = none :=
  ⟨(take_stdin_spec (Process.new "sort") Stdio.null 7).1,
   (take_stdin_spec (Process.new "sort") Stdio.null 7).2.2 (by decide)⟩

/-- Claim C7: firing the cancellation signal is idempotent — `abort` twice
leaves the same `Process` state as `abort` once (hence the same observable
event sequence), `abort` any number `n + 1` of times equals `abort` once, and
firing an already-fired token has no effect (first fire wins). -/
theorem abort_idempotent (p : Process) (t : NotifyToken) :
    p.abort.abort = p.abort ∧
    (∀ n : Nat, Process.abort^[n + 1] p = p.abort) ∧
    (∀ observe : Process → List ProcessItem,
      observe p.abort.abort = observe p.abort) ∧
    (t.fired = true → t.notify_waiters = t) := by
  have key : p.abort.abort = p.abort := by
    cases hp : p.abort_notify with
    | none => simp [Process.abort, Process.aborter, hp]
    | some t0 =>
      simp [Process.abort, Process.aborter, hp, NotifyToken.notify_waiters]
  refine ⟨key, ?_, fun observe => by rw [key], ?_⟩
  · intro n
    induction n with
    | zero => simp
    | succ n ih => rw [Function.iterate_succ_apply', ih, key]
  · intro hf
    cases t with
    | mk fired =>
      simp only [NotifyToken.notify_waiters, NotifyToken.mk.injEq]
      exact hf.symm

/-- Witness for C7 at a concrete process and a fired token. -/
theorem abort_idempotent_witness :
    (Process.new "sleep").abort.abort = (Process.new "sleep").abort ∧
    NotifyToken.notify_waiters ⟨true⟩ = (⟨true⟩ : NotifyToken) :=
  ⟨(abort_idempotent (Process.new "sleep") ⟨true⟩).1,
   (abort_idempotent (Process.new "sleep") ⟨true⟩).2.2.2 rfl⟩

/-- Claim C4: when the cancellation signal fires during the loop, the engine
calls `start_kill`; on success it yields `Exit "0"` and on failure it yields
`Error ("abort Process Error: " ++ e)`, and in both cases the loop breaks
right after that event — nothing later is emitted. -/
theorem abort_branch_spec (e : IoError) (rest : List SelectArm)
    (k : Except IoError Unit) :
    stepEmit (SelectArm.abortSig (.ok ())) = ProcessItem.Exit "0" ∧
    stepEmit (SelectArm.abortSig (.error e))
      = ProcessItem.Error ("abort Process Error: " ++ e) ∧
    stepBreaks (SelectArm.abortSig k) = true ∧
    spawnAndStreamRun (SelectArm.abortSig k :: rest)
      = [stepEmit (SelectArm.abortSig k)] := by
  refine ⟨rfl, rfl, rfl, ?_⟩
  simp [spawnAndStreamRun, stepBreaks]

/-- Claim C1 counterexample: in the lib.rs engine an exit-wait-failure `Error`
is not terminal — with a wait failure resolved first and a successful wait
resolved next, the run is `[Error "boom", Exit "0"]`, so an event does follow
the event the claim counts as terminal. -/
theorem terminal_shape_cex : ¬ TerminalShapeClaim := by
  intro h
  have h2 := h [] (SelectArm.wait (.error "boom"))
    [SelectArm.wait (.ok (some 0))] (by simp) rfl
  exact absurd h2 (by decide)

/-- Claim C1 (amended): in the lib.rs engine the loop breaks exactly on the
`Ok`-wait and abort arms; a run over non-breaking arms (line events and
exit-wait failures) followed by a breaking arm emits those events and then the
one breaking event, with nothing after it, whatever later iterations would
resolve; in particular a process that exits normally with code `code` yields
the prior events followed by exactly one `Exit` whose text reads back as the
real code; and in runner.rs's `to_stream` the chained final element is always
the last event. -/
theorem engine_terminal_shape (pres : List SelectArm) (a : SelectArm)
    (rest : List SelectArm) (code : Int)
    (hpre : ∀ b ∈ pres, stepBreaks b = false) (ha : stepBreaks a = true) :
    spawnAndStreamRun (pres ++ a :: rest) = pres.map stepEmit ++ [stepEmit a] ∧
    spawnAndStreamRun (pres ++ [SelectArm.wait (.ok (some code))])
      = pres.map stepEmit ++ [ProcessItem.Exit (formatInt code)] ∧
    parseDecInt (formatInt code) = code ∧
    (∀ merged exitRes,
      (toStreamRun merged exitRes).getLast? = some (finalUpdate exitRes)) := by
  refine ⟨spawnAndStreamRun_append_break pres a rest hpre ha, ?_,
    parse_formatInt code, ?_⟩
  · exact spawnAndStreamRun_append_break pres _ [] hpre rfl
  · intro merged exitRes
    exact List.getLast?_concat _

/-- Witness for C1 (amended): spec Scenario A — two stdout lines then a
normal exit with code 0. -/
theorem engine_terminal_shape_witness :
    spawnAndStreamRun [SelectArm.line true (.ok "a"), SelectArm.line true (.ok "b"),
        SelectArm.wait (.ok (some 0))]
      = [ProcessItem.Output "a", ProcessItem.Output "b", ProcessItem.Exit "0"] ∧
    parseDecInt (formatInt 0) = 0 := by
  have h := engine_terminal_shape
    [SelectArm.line true (.ok "a"), SelectArm.line true (.ok "b")]
    (SelectArm.wait (.ok (some 0))) [] 0 (by decide) rfl
  exact ⟨h.2.1, h.2.2.1⟩

/-- Claim C2 counterexample: after `child.wait()` fails the loop does not
break — scheduling a successful wait next extends the run to
`[Error "wait failed", Exit "0"]`, so the sequence does not end at the
wait-failure `Error`. -/
theorem wait_error_cex : ¬ WaitErrorTerminalClaim := by
  intro h
  have h2 := h "wait failed" [SelectArm.wait (.ok (some 0))]
  exact absurd h2 (by decide)

/-- Claim C2 (amended): on an exit-wait failure the lib.rs engine emits
exactly one `Error` carrying the error's message, but the loop continues —
the run goes on with whatever later iterations produce; in runner.rs's
`to_stream`, by contrast, an exit-wait failure (either a join error or an
`io::Error` from `wait`) is the final, last element of the sequence. -/
theorem wait_error_spec (e : IoError) (rest : List SelectArm)
    (merged : List (Bool × Except IoError String)) :
    stepEmit (SelectArm.wait (.error e)) = ProcessItem.Error e ∧
    stepBreaks (SelectArm.wait (.error e)) = false ∧
    spawnAndStreamRun (SelectArm.wait (.error e) :: rest)
      = ProcessItem.Error e :: spawnAndStreamRun rest ∧
    (toStreamRun merged (.ok (.error e))).getLast?
      = some (ProcessUpdate.Error e) ∧
    (toStreamRun merged (.error e)).getLast? = some (ProcessUpdate.Error e) := by
  refine ⟨rfl, rfl, spawnAndStreamRun_cons_nobreak _ rest rfl, ?_, ?_⟩ <;>
    exact List.getLast?_concat _

/-- Claim C3 counterexample: in runner.rs's `to_stream` a child that
terminates without a numeric exit code produces the terminal event
`Exit "0"` — a fabricated code via `unwrap_or(0)` — not an `Error`. -/
theorem missing_code_cex : ¬ MissingCodeNeverExitClaim := by
  intro h
  exact h.2 [] "0" (by decide)

/-- Claim C3 (amended): on a missing exit code the lib.rs engine does emit the
terminal `Error "Unable to get exit code"` (and breaks, never an `Exit`), but
runner.rs's `to_stream` instead fabricates the terminal event `Exit "0"` via
`code().unwrap_or(0)`. -/
theorem missing_code_spec (merged : List (Bool × Except IoError String)) :
    stepEmit (SelectArm.wait (.ok none))
      = ProcessItem.Error "Unable to get exit code" ∧
    stepBreaks (SelectArm.wait (.ok none)) = true ∧
    (∀ s, stepEmit (SelectArm.wait (.ok none)) ≠ ProcessItem.Exit s) ∧
    (toStreamRun merged (.ok (.ok none))).getLast?
      = some (ProcessUpdate.Exit "0") := by
  refine ⟨rfl, rfl, fun s hc => ProcessItem.noConfusion hc, ?_⟩
  exact List.getLast?_concat _

/-- Claim C5: a decoded stdout line maps to `Output`, a decoded stderr line to
`Error`, and a read failure to `Error` with the failure's message regardless
of origin; `into_stream` applies exactly this mapping item-wise; every line
the Line Reader produces has its trailing line terminator stripped (it
contains no line feed); and an `Exit` event's text is the decimal rendering of
the exit status (it reads back as the status). -/
theorem ofRaw_spec (s e : String) (b : Bool) (raw l : List Char) (c : Int)
    (hl : l ∈ splitLines raw) :
    ProcessItem.ofRaw true (.ok s) = ProcessItem.Output s ∧
    ProcessItem.ofRaw false (.ok s) = ProcessItem.Error s ∧
    ProcessItem.ofRaw b (.error e) = ProcessItem.Error e ∧
    into_stream [.ok s, .error e] true
      = [ProcessItem.Output s, ProcessItem.Error e] ∧
    '\n' ∉ l ∧
    stepEmit (SelectArm.wait (.ok (some c))) = ProcessItem.Exit (formatInt c) ∧
    parseDecInt (formatInt c) = c := by
  refine ⟨rfl, rfl, ?_, rfl, splitLines_no_newline raw l hl, rfl,
    parse_formatInt c⟩
  cases b <;> rfl

/-- Witness for C5 at concrete input: the raw bytes `"a\r\nb"` decode to the
lines `["a", "b"]`, and `-12` survives a format/parse round trip. -/
theorem ofRaw_spec_witness :
    ProcessItem.ofRaw true (.ok "x") = ProcessItem.Output "x" ∧
    '\n' ∉ (['a'] : List Char) ∧
    parseDecInt (formatInt (-12)) = -12 := by
  have h := ofRaw_spec "x" "e" true ("a\r\nb".data) ['a'] (-12) (by decide)
  exact ⟨h.1, h.2.2.2.2.1, h.2.2.2.2.2.2⟩

/-- Claim C6: any interleaving the Stream Merger may produce preserves each
pipe's internal line order (each input is a subsequence of the merged
sequence), contains every line of both pipes (its length is the sum, and it is
empty only when both inputs ended empty), and imposes no global cross-pipe
order (for one-element inputs both relative orders are admissible merges). -/
theorem merge_spec {α : Type} (xs ys zs : List α) (h : Merge xs ys zs) :
    List.Sublist xs zs ∧ List.Sublist ys zs ∧
    zs.length = xs.length + ys.length ∧
    (zs = [] → xs = [] ∧ ys = []) ∧
    (∀ a b : Nat, Merge [a] [b] [a, b] ∧ Merge [a] [b] [b, a]) := by
  have key : List.Sublist xs zs ∧ List.Sublist ys zs ∧
      zs.length = xs.length + ys.length := by
    induction h with
    | nil => exact ⟨List.Sublist.refl [], List.Sublist.refl [], rfl⟩
    | left h2 ih =>
      exact ⟨ih.1.cons₂ _, ih.2.1.cons _, by simp only [List.length_cons, ih.2.2]; omega⟩
    | right h2 ih =>
      exact ⟨ih.1.cons _, ih.2.1.cons₂ _, by simp only [List.length_cons, ih.2.2]; omega⟩
  refine ⟨key.1, key.2.1, key.2.2, ?_,
    fun a b => ⟨Merge.left (Merge.right Merge.nil),
      Merge.right (Merge.left Merge.nil)⟩⟩
  intro hz
  have hlen := key.2.2
  rw [hz] at hlen
  simp only [List.length_nil] at hlen
  constructor
  · exact List.length_eq_zero.1 (by omega)
  · exact List.length_eq_zero.1 (by omega)

/-- Witness for C6 at a concrete merge of `[0]` and `[1]`. -/
theorem merge_spec_witness :
    List.Sublist [0] ([0, 1] : List Nat) ∧
    List.Sublist [1] ([0, 1] : List Nat) ∧
    ([0, 1] : List Nat).length = [0].length + [1].length :=
  ⟨(merge_spec [0] [1] [0, 1] (Merge.left (Merge.right Merge.nil))).1,
   (merge_spec [0] [1] [0, 1] (Merge.left (Merge.right Merge.nil))).2.1,
   (merge_spec [0] [1] [0, 1] (Merge.left (Merge.right Merge.nil))).2.2.1⟩

end ProcessStream

